import Mathlib

/-!
# Verification of the neo-devpack-ts compiler core

A shallow embedding of the parts of the `neo-devpack-ts` repository that the
frozen claims are about:

* the arbitrary-precision integer codec (`bigIntToByteArray`,
  `byteArrayToBigInt`, and the helpers `toBuffer`, `toBigInt`, `allBitsSet`)
  from `packages/compiler/src/utils.ts`;
* the conditional-expression lowering and the expression-chain reducer from
  `packages/compiler/src/passes/expressionProcessor.ts`;
* the method/artifact collection (`toMethodDef`, `toDebugInfoMethod`,
  `collectArtifactsPass`) and the pass driver (`compile`) from
  `packages/compiler/src/compiler.ts`.

Byte arrays are lists of `Nat` (each element kept below 256 by construction),
JavaScript `bigint` is `Int`, and a function that can throw is embedded as
`Except String _`.
-/

namespace NeoDevpack

/-! ## Integer codec (`packages/compiler/src/utils.ts`) -/

/-- Little-endian base-256 digits of a natural number (`[]` for 0).  The first
argument is fuel, consumed once per emitted byte; `natToBytesLE` supplies `n`
itself as fuel, which always suffices since `n / 256 < n` for `n > 0`. -/
def natToBytesLEFuel : Nat → Nat → List Nat
  | _, 0 => []
  | 0, _ + 1 => []
  | fuel + 1, n + 1 => ((n + 1) % 256) :: natToBytesLEFuel fuel ((n + 1) / 256)

def natToBytesLE (n : Nat) : List Nat := natToBytesLEFuel n n

/-- Minimal big-endian base-256 representation of a natural number
(`[]` for 0, no leading zero byte otherwise).  This is what
`value.toString(16)` (left-padded to even length) followed by
`Buffer.from(str, 'hex')` produces for a positive JS bigint. -/
def natToBytesBE (n : Nat) : List Nat := (natToBytesLE n).reverse

/-- Value of a big-endian byte string, as in `BigInt("0x" + hex)`. -/
def bytesToNatBE (bs : List Nat) : Nat := bs.foldl (fun a b => a * 256 + b) 0

/-- `toBuffer` from utils.ts: `value.toString(16)`, pad to even length,
`Buffer.from(_, 'hex')`.  For `value = 0` the hex string is `"00"`, giving the
single byte `0x00`; otherwise the minimal big-endian bytes. -/
def toBuffer (value : Nat) : List Nat :=
  if value = 0 then [0] else natToBytesBE value

/-- `toBigInt` from utils.ts: `BigInt("0x" + buffer.toString('hex'))`.  For a
non-empty buffer this is the big-endian value; the empty-buffer `SyntaxError`
of `BigInt("0x")` is modelled at its only reachable call site,
`byteArrayToBigInt`. -/
def toBigInt (buffer : List Nat) : Nat := bytesToNatBE buffer

/-- `allBitsSet` from utils.ts: every byte of the buffer is `0xff`. -/
def allBitsSet (buffer : List Nat) : Bool := buffer.all (fun b => b == 0xff)

/-- `byteArrayToBigInt` from utils.ts.  Copies the input, reverses the copy,
then: if the most-significant byte's sign bit is clear, parse as an unsigned
big-endian integer (the empty input reaches `BigInt("0x")`, which throws a
`SyntaxError`); otherwise `throw new Error("Not Implemented")`. -/
def byteArrayToBigInt (value : List Nat) : Except String Int :=
  let buffer := value.reverse
  let negativeValue := buffer.headD 0 &&& 0x80
  if negativeValue = 0 then
    if buffer.isEmpty then Except.error "Cannot convert 0x to a BigInt"
    else Except.ok (toBigInt buffer : Nat)
  else Except.error "Not Implemented"

/-- `bigIntToByteArray` from utils.ts: convert a JS `bigint` to the C#
`BigInteger` little-endian byte-array encoding. -/
def bigIntToByteArray (value : Int) : List Nat :=
  if 0 ≤ value then
    -- convert value to buffer
    let buffer := toBuffer value.toNat
    -- if the most significant bit is 1, prepend a 0x00 byte
    let buffer := if buffer.headD 0 &&& 0x80 ≠ 0 then 0 :: buffer else buffer
    -- reverse endianess
    buffer.reverse
  else
    -- convert negative number to positive and create buffer
    let buffer := toBuffer (-value).toNat
    -- if the buffer has all the bits set, prepend an empty padding byte
    let buffer := if allBitsSet buffer then 0 :: buffer else buffer
    -- invert the bits (the `buffer[i] ^= 0xff` loop)
    let buffer := buffer.map (fun b => b ^^^ 0xff)
    -- convert the updated buffer to a bigint, add one, convert back to buffer
    let buffer2 := toBuffer (toBigInt buffer + 1)
    -- if the most significant bit isn't 1, prepend a 0xff byte
    let buffer2 := if buffer2.headD 0 &&& 0x80 = 0 then 0xff :: buffer2 else buffer2
    -- reverse endianess
    buffer2.reverse

/-! Spec-side formulations of the codec, written from the words of spec.md
§4.1, to be compared with the source functions above. -/

/-- The spec's positive-encoding algorithm (spec.md §4.1): "encode the
magnitude big-endian, then prepend a `0x00` byte if the most-significant bit
of the first byte is set, then reverse to little-endian". -/
def specPositiveEncode (n : Int) : List Nat :=
  let mag := natToBytesBE n.toNat
  let mag := if 0x80 ≤ mag.headD 0 then 0 :: mag else mag
  mag.reverse

/-- The spec's negative-encoding algorithm (spec.md §4.1): "encode `|n|`; if
the encoding's bytes are *all* `0xFF` append a leading `0x00` padding byte
before inverting; bitwise-invert every byte; interpret as a big-endian
magnitude, add 1, re-encode; if the result's most-significant bit is clear,
prepend `0xFF`; reverse to little-endian". -/
def specNegativeEncode (n : Int) : List Nat :=
  let mag := natToBytesBE (-n).toNat
  let mag := if mag.all (fun b => b == 0xff) then 0 :: mag else mag
  let inv := mag.map (fun b => 255 - b)
  let sum := bytesToNatBE inv + 1
  let re := natToBytesBE sum
  let re := if re.headD 0 < 0x80 then 0xff :: re else re
  re.reverse

/-- Little-endian two's-complement reading of a non-empty byte string: the
unsigned big-endian value of the reversed bytes, minus `2^(8·len)` when the
most-significant byte's sign bit is set. -/
def twosComplementValue (bs : List Nat) : Int :=
  let u : Int := bytesToNatBE bs.reverse
  if bs.getLastD 0 &&& 0x80 ≠ 0 then u - 2 ^ (8 * bs.length) else u

/-- A little-endian byte string has a removable leading byte (in the
two's-complement sense) when its most-significant byte is a `0x00` in front of
a clear sign bit, or a `0xFF` in front of a set sign bit. -/
def hasRemovableLeadingByte (bs : List Nat) : Bool :=
  match bs.reverse with
  | b0 :: b1 :: _ => (b0 == 0x00 && b1 &&& 0x80 == 0) || (b0 == 0xff && b1 &&& 0x80 != 0)
  | _ => false

/-! Representative-set tables from `bigIntToByteArray.spec.ts`: the boundary
values of both signs, each paired with the expected byte string (the test
tables there compare against `Buffer.from(expected, 'hex')`, so the hex
string lists the expected little-endian output bytes in order). -/

def c1PositiveCases : List (Int × List Nat) := [
  (0, [0]),
  (1, [1]),
  (127, [127]),
  (128, [128, 0]),
  (255, [255, 0]),
  (256, [0, 1]),
  (32767, [255, 127]),
  (32768, [0, 128, 0]),
  (65535, [255, 255, 0]),
  (65536, [0, 0, 1]),
  (8388607, [255, 255, 127]),
  (8388608, [0, 0, 128, 0]),
  (2147483647, [255, 255, 255, 127]),
  (2147483648, [0, 0, 0, 128, 0]),
  (549755813887, [255, 255, 255, 255, 127]),
  (549755813888, [0, 0, 0, 0, 128, 0]),
  (140737488355327, [255, 255, 255, 255, 255, 127]),
  (140737488355328, [0, 0, 0, 0, 0, 128, 0]),
  (36028797018963967, [255, 255, 255, 255, 255, 255, 127]),
  (36028797018963968, [0, 0, 0, 0, 0, 0, 128, 0]),
  (9223372036854775807, [255, 255, 255, 255, 255, 255, 255, 127]),
  (9223372036854775808, [0, 0, 0, 0, 0, 0, 0, 128, 0]),
  (18446744073709551615, [255, 255, 255, 255, 255, 255, 255, 255, 0]),
  (18446744073709551616, [0, 0, 0, 0, 0, 0, 0, 0, 1])
]

def c1NegativeCases : List (Int × List Nat) := [
  (-1, [255]),
  (-127, [129]),
  (-128, [128]),
  (-129, [127, 255]),
  (-255, [1, 255]),
  (-256, [0, 255]),
  (-257, [255, 254]),
  (-32767, [1, 128]),
  (-32768, [0, 128]),
  (-32769, [255, 127, 255]),
  (-8388607, [1, 0, 128]),
  (-8388608, [0, 0, 128]),
  (-8388609, [255, 255, 127, 255]),
  (-2147483647, [1, 0, 0, 128]),
  (-2147483648, [0, 0, 0, 128]),
  (-2147483649, [255, 255, 255, 127, 255]),
  (-9223372036854775807, [1, 0, 0, 0, 0, 0, 0, 128]),
  (-9223372036854775808, [0, 0, 0, 0, 0, 0, 0, 128]),
  (-9223372036854775809, [255, 255, 255, 255, 255, 255, 255, 127, 255]),
  (-18446744073709551615, [1, 0, 0, 0, 0, 0, 0, 0, 255]),
  (-18446744073709551616, [0, 0, 0, 0, 0, 0, 0, 0, 255]),
  (-18446744073709551617, [255, 255, 255, 255, 255, 255, 255, 255, 254])
]

/-- `bigIntToByteArray n` produces exactly the byte string `bs`. -/
def encodesTo (n : Int) (bs : List Nat) : Bool := bigIntToByteArray n == bs

/-- Decoding `bs` succeeds and returns `n`. -/
def decodesBackTo (bs : List Nat) (n : Int) : Bool :=
  match byteArrayToBigInt bs with
  | Except.ok v => v == n
  | Except.error _ => false

/-- Decoding `bs` throws the codec's "Not Implemented" error. -/
def decodeNotImplemented (bs : List Nat) : Bool :=
  match byteArrayToBigInt bs with
  | Except.error msg => msg == "Not Implemented"
  | Except.ok _ => false

/-! ## Operation model

Modelled from the spec: the Operation IR lives in `types/Operation.ts`, which
is not among the provided sources; spec.md §3 describes it as a tagged
variant whose jump-style members each carry "a reference to a *target
Operation* (identity reference, not yet an address)" and a no-op used purely
as a jump-target placeholder.  JS object identity of the placeholder no-ops
is modelled by tagging each no-op with a numeric identity; a jump-style
operation stores the identity of its target no-op. -/

inductive Operation where
  | noop (id : Nat)
  | jump (target : Nat)
  | jumpif (target : Nat)
  | jumpifnot (target : Nat)
  | pushint (value : Int)
  | pushbool (value : Bool)
  | pushnull
  | pushdata (bytes : List Nat)
  | initslot (locals : Nat) (args : Nat)
  | syscall (name : String)
  deriving DecidableEq, Repr

/-- Modelled from the spec: `isJumpTargetOp` of `types/Operation.ts` — the
target reference carried by a jump-style operation, if any. -/
def jumpTarget? : Operation → Option Nat
  | Operation.jump t => some t
  | Operation.jumpif t => some t
  | Operation.jumpifnot t => some t
  | _ => none

/-- Modelled from the spec: the `pushInt` helper of `types/Operation.ts`. -/
def pushInt (value : Int) : Operation := Operation.pushint value

/-- Modelled from the spec: the `pushString` helper of `types/Operation.ts`;
push-data carrying the string's bytes (UTF-8 in the source, modelled as the
string's code points). -/
def pushString (value : String) : Operation :=
  Operation.pushdata (value.data.map Char.toNat)

/-- `makeConditionalExpression` from `passes/expressionProcessor.ts`.  The
source allocates two fresh no-op Operations as the false target and the end
target; their identities are passed here as `falseId` and `endId`. -/
def makeConditionalExpression (falseId endId : Nat)
    (condition whenTrue whenFalse : List Operation) : List Operation :=
  condition
    ++ [Operation.jumpifnot falseId]
    ++ whenTrue
    ++ [Operation.jump endId]
    ++ [Operation.noop falseId]
    ++ whenFalse
    ++ [Operation.noop endId]

/-! ## Expression-chain reduction (`passes/expressionProcessor.ts`) -/

structure ParseError where
  message : String
  deriving DecidableEq, Repr

instance exceptDecidableEq {e a : Type} [DecidableEq e] [DecidableEq a] :
    DecidableEq (Except e a) := fun x y =>
  match x, y with
  | Except.ok u, Except.ok v =>
    if h : u = v then isTrue (h ▸ rfl) else isFalse (fun c => h (Except.ok.inj c))
  | Except.error u, Except.error v =>
    if h : u = v then isTrue (h ▸ rfl) else isFalse (fun c => h (Except.error.inj c))
  | Except.ok _, Except.error _ => isFalse (fun c => Except.noConfusion c)
  | Except.error _, Except.ok _ => isFalse (fun c => Except.noConfusion c)

def makeParseError (message : String) : ParseError := ⟨message⟩

/-- Modelled from the spec: `CompileTimeObject`
(`types/CompileTimeObject.ts` is not among the provided sources; spec.md §3
"CompileTimeObject"): the symbol it binds and, when the entity supports
loading, the outcome of its `getLoadOps` behaviour. -/
structure CompileTimeObject where
  symbol : String
  getLoadOps : Option (Except ParseError (List Operation))
  deriving DecidableEq, Repr

abbrev Scope := List (String × CompileTimeObject)

/-- `resolve` of `types/CompileTimeObject.ts`: look a symbol up in a scope. -/
def resolve (scope : Scope) (name : String) : Option CompileTimeObject :=
  (scope.find? (fun e => e.1 == name)).map (fun e => e.2)

/-- The expression forms `reduceExpressionChain` dispatches on (its
`tsm.SyntaxKind` switch), plus a property-access form, which both supplies
the chain decomposition (`TS.getExpression`) and exercises the reducer's
not-implemented default branch. -/
inductive Expr where
  | bigIntLiteral (value : Int)
  | booleanLiteral (value : Bool)
  | nullLiteral
  | numericLiteral (value : Int) (isInteger : Bool)
  | stringLiteral (value : String)
  | identifier (name : String)
  | propertyAccess (expr : Expr) (name : String)
  deriving DecidableEq, Repr

structure ExpressionChainContext where
  scope : Scope
  endTarget : Operation
  ops : List Operation
  cto : Option CompileTimeObject := none
  error : Option ParseError := none
  deriving DecidableEq, Repr

def reduceBigIntLitera (context : ExpressionChainContext) (value : Int) :
    ExpressionChainContext :=
  { context with ops := context.ops ++ [pushInt value] }

def reduceBooleanLiteral (context : ExpressionChainContext) (value : Bool) :
    ExpressionChainContext :=
  { context with ops := context.ops ++ [Operation.pushbool value] }

def reduceNullLiteral (context : ExpressionChainContext) : ExpressionChainContext :=
  { context with ops := context.ops ++ [Operation.pushnull] }

/-- `reduceNumericLiteral`: the source checks `Number.isInteger` on the JS
number; the literal is modelled as its value together with that flag. -/
def reduceNumericLiteral (context : ExpressionChainContext) (value : Int)
    (isInteger : Bool) : ExpressionChainContext :=
  if isInteger then { context with ops := context.ops ++ [pushInt value] }
  else { context with error := some (makeParseError "invalid non-integer numeric literal") }

def reduceStringLiteral (context : ExpressionChainContext) (value : String) :
    ExpressionChainContext :=
  { context with ops := context.ops ++ [pushString value] }

def reduceIdentifier (context : ExpressionChainContext) (name : String) :
    ExpressionChainContext :=
  match resolve context.scope name with
  | none =>
    { context with error := some (makeParseError ("Failed to resolve identifier " ++ name)) }
  | some cto =>
    match cto.getLoadOps with
    | none =>
      { context with error := some (makeParseError (cto.symbol ++ " does not support load operations")) }
    | some (Except.error e) => { context with error := some e }
    | some (Except.ok loadOps) =>
      { context with cto := some cto, ops := context.ops ++ loadOps }

def reduceExpressionChain (context : ExpressionChainContext) (node : Expr) :
    ExpressionChainContext :=
  if context.error.isSome then context
  else
    match node with
    | Expr.bigIntLiteral v => reduceBigIntLitera context v
    | Expr.booleanLiteral v => reduceBooleanLiteral context v
    | Expr.identifier name => reduceIdentifier context name
    | Expr.nullLiteral => reduceNullLiteral context
    | Expr.numericLiteral v isInt => reduceNumericLiteral context v isInt
    | Expr.stringLiteral s => reduceStringLiteral context s
    | Expr.propertyAccess _ _ =>
      { context with
        error := some (makeParseError "reduceChainContext PropertyAccessExpression not implemented") }

/-- `makeExpressionChain`: decompose an expression into its access chain,
innermost sub-expression first (the source repeatedly prepends
`TS.getExpression` results). -/
def makeExpressionChain : Expr → List Expr
  | Expr.propertyAccess e name => makeExpressionChain e ++ [Expr.propertyAccess e name]
  | node => [node]

/-- The context `parseExpression` starts the reduction from; the source
allocates a fresh `{ kind: 'noop' }` end target, whose identity is `endId`
here. -/
def initialChainContext (scope : Scope) (endId : Nat) : ExpressionChainContext :=
  { scope := scope, endTarget := Operation.noop endId, ops := [] }

def parseExpression (endId : Nat) (scope : Scope) (node : Expr) :
    Except ParseError (List Operation) :=
  let chain := makeExpressionChain node
  let context := initialChainContext scope endId
  let result := chain.foldl reduceExpressionChain context
  match result.error with
  | some e => Except.error e
  | none =>
    let hasEndJumps := result.ops.any (fun op => jumpTarget? op == some endId)
    if hasEndJumps then Except.ok (result.ops ++ [context.endTarget])
    else Except.ok result.ops

/-! ## Manifest, debug info and the compile driver (`compiler.ts`) -/

inductive DiagnosticCategory where
  | Warning | Error | Suggestion | Message
  deriving DecidableEq, Repr

structure Diagnostic where
  category : DiagnosticCategory
  messageText : String
  deriving DecidableEq, Repr

/-- Modelled from the spec: the resolved type descriptor the front end
supplies for a node (spec.md §6: "integer-like/boolean-like/string-like/
void-like/interop categories"); `utils.ts` tests these via type flags
(`isVoidLike` and friends). -/
inductive TsTypeCategory where
  | voidLike | bigIntLike | booleanLike | numberLike | stringLike | interop
  deriving DecidableEq, Repr

def isVoidLike (t : TsTypeCategory) : Bool := t == TsTypeCategory.voidLike

/-- `sc.ContractParamType` of the external `@cityofzion/neon-core`
collaborator (the codomain of `convertContractType`). -/
inductive ContractParamType where
  | Any | Signature | Boolean | Integer | Hash160 | Hash256 | ByteArray
  | PublicKey | String | Array | Map | InteropInterface | Void
  deriving DecidableEq, Repr

/-- Modelled from the spec: `tsTypeToContractType` of `contractType.ts` (not
among the provided sources) maps the front end's type to the debug-info
contract-type descriptor; the descriptor is identified with its category
here. -/
def tsTypeToContractType (t : TsTypeCategory) : TsTypeCategory := t

/-- `convertContractType` of `compiler.ts`, composed with the (modelled)
`tsTypeToContractType`: the switch from contract-type kinds to
`sc.ContractParamType`. -/
def convertContractType : TsTypeCategory → ContractParamType
  | TsTypeCategory.voidLike => ContractParamType.Any
  | TsTypeCategory.bigIntLike => ContractParamType.Integer
  | TsTypeCategory.numberLike => ContractParamType.Integer
  | TsTypeCategory.booleanLike => ContractParamType.Boolean
  | TsTypeCategory.stringLike => ContractParamType.String
  | TsTypeCategory.interop => ContractParamType.InteropInterface

structure ParameterDeclaration where
  name : String
  type : TsTypeCategory
  deriving DecidableEq, Repr

/-- A named function declaration as `processFunctionsPass` and `toMethodDef`
consume it: name, export keyword, parameters, return type, and the outcome
of translating its body. -/
structure FunctionDeclaration where
  name : String
  hasExportKeyword : Bool
  parameters : List ParameterDeclaration
  returnType : TsTypeCategory
  /-- Modelled from the spec: the result of `convertStatement` (`convert.ts`
  is not among the provided sources): the body's Operations, or the thrown
  compile error for an unsupported construct. -/
  body : Except String (List Operation)
  deriving DecidableEq, Repr

/-- `sc.ContractMethodDefinition` as `toMethodDef` constructs it.  Note the
`returnType` field is always present — the source passes either
`sc.ContractParamType.Void` or the converted type to the constructor. -/
structure ContractMethodDefinition where
  name : String
  offset : Nat
  parameters : List (String × ContractParamType)
  returnType : ContractParamType
  deriving DecidableEq, Repr

/-- `toMethodDef` from `compiler.ts`. -/
def toMethodDef (node : FunctionDeclaration) (offset : Nat) :
    Option ContractMethodDefinition :=
  if !node.hasExportKeyword then none
  else some {
    name := node.name
    offset := offset
    parameters := node.parameters.map (fun p => (p.name, convertContractType p.type))
    returnType :=
      if isVoidLike node.returnType then ContractParamType.Void
      else convertContractType node.returnType }

/-- Modelled from the spec: a sequence point (`debugInfo.ts` is not among
the provided sources; spec.md glossary: a source-location ↔ byte-offset
pair). -/
structure SequencePoint where
  address : Nat
  line : Nat
  deriving DecidableEq, Repr

structure DebugInfoParameter where
  name : String
  index : Nat
  type : TsTypeCategory
  deriving DecidableEq, Repr

/-- A debug-info method entry as `toDebugInfoMethod` constructs it: here the
return type is an optional field, set to `undefined` for void. -/
structure DebugInfoMethod where
  name : String
  rangeStart : Nat
  rangeEnd : Int
  parameters : List DebugInfoParameter
  returnType : Option TsTypeCategory
  sequencePoints : List SequencePoint
  deriving DecidableEq, Repr

/-- An `OperationContext` of `compiler.ts`: one function being compiled,
with the operations accumulated in its script builder. -/
structure OperationContext where
  name : String
  isPublic : Bool
  node : FunctionDeclaration
  builderOps : List Operation
  deriving DecidableEq, Repr

/-- `toDebugInfoMethod` from `compiler.ts`. -/
def toDebugInfoMethod (op : OperationContext) (offset length : Nat)
    (sequencePoints : List SequencePoint) : DebugInfoMethod :=
  { name := op.name
    rangeStart := offset
    rangeEnd := (offset : Int) + length - 1
    parameters := (op.node.parameters.enum).map
      (fun p => { name := p.2.name, index := p.1, type := tsTypeToContractType p.2.type })
    returnType :=
      if isVoidLike op.node.returnType then none
      else some (tsTypeToContractType op.node.returnType)
    sequencePoints := sequencePoints }

/-- A source file as the passes consume it: declaration files contribute
interfaces and variables to `resolveDeclarationsPass`, other files
contribute function declarations to `processFunctionsPass`. -/
structure SourceFileM where
  isDeclarationFile : Bool
  interfaces : List (String × List String) := []
  vars : List (String × String) := []
  functions : List FunctionDeclaration := []
  deriving DecidableEq, Repr

structure Builtins where
  vars : List (String × String)
  interfaces : List (String × List (String × List String))
  deriving DecidableEq, Repr

structure NEF where
  compiler : String
  script : List Nat
  deriving DecidableEq, Repr

structure ContractManifest where
  name : String
  methods : List ContractMethodDefinition
  deriving DecidableEq, Repr

/-- Debug info; the contract hash and checksum the source computes with
neon-core's hashing (an external collaborator) are not modelled. -/
structure DebugInfo where
  methods : List DebugInfoMethod
  deriving DecidableEq, Repr

structure CompilationArtifacts where
  nef : NEF
  manifest : ContractManifest
  debugInfo : DebugInfo
  deriving DecidableEq, Repr

structure CompilationContext where
  project : List SourceFileM
  name : Option String := none
  builtins : Option Builtins := none
  operations : List OperationContext := []
  diagnostics : List Diagnostic := []
  artifacts : Option CompilationArtifacts := none
  deriving DecidableEq, Repr

abbrev CompilePass := CompilationContext → CompilationContext × Option String

/-- The `storageBuiltin` table of `resolveDeclarationsPass`. -/
def storageBuiltin : List (String × List String) := [
  ("currentContext", ["System.Storage.GetContext"]),
  ("get", ["System.Storage.Get"]),
  ("put", ["System.Storage.Put"])]

def builtinInterfaces : List (String × List (String × List String)) :=
  [("StorageConstructor", storageBuiltin)]

/-- The interface-resolution step of `resolveDeclarationsPass`: a declared
interface is kept only when its name is in the builtin table, and its
members are paired with their syscalls. -/
def resolveInterface (ifaceName : String) (memberNames : List String) :
    Option (String × List (String × List String)) :=
  match builtinInterfaces.find? (fun e => e.1 == ifaceName) with
  | none => none
  | some entry =>
    some (ifaceName, memberNames.filterMap
      (fun m => (entry.2.find? (fun e => e.1 == m)).map (fun e => (m, e.2))))

/-- `resolveDeclarationsPass` from `compiler.ts`: walk the declaration
files, build the builtin interface and variable maps.  It never throws. -/
def resolveDeclarationsPass : CompilePass := fun context =>
  let declFiles := context.project.filter (fun src => src.isDeclarationFile)
  let interfaces :=
    (declFiles.map (fun src => src.interfaces.filterMap (fun i => resolveInterface i.1 i.2))).flatten
  let vars := (declFiles.map (fun src => src.vars)).flatten
  ({ context with builtins := some { vars := vars, interfaces := interfaces } }, none)

/-- One function declaration inside `processFunctionsPass`: the operation
context is pushed first (with the `INITSLOT` prefix when there are
parameters), then the body is converted; a conversion error is the thrown
`CompileError` escaping the pass. -/
def processFunctionDeclaration (context : CompilationContext)
    (node : FunctionDeclaration) : CompilationContext × Option String :=
  let initOps : List Operation :=
    if 0 < node.parameters.length then [Operation.initslot 0 node.parameters.length] else []
  let opCtx : OperationContext :=
    { name := node.name, isPublic := node.hasExportKeyword, node := node, builderOps := initOps }
  match node.body with
  | Except.ok bodyOps =>
    ({ context with
        operations := context.operations ++ [{ opCtx with builderOps := initOps ++ bodyOps }] },
      none)
  | Except.error msg =>
    ({ context with operations := context.operations ++ [opCtx] }, some msg)

def processFunctionList :
    CompilationContext → List FunctionDeclaration → CompilationContext × Option String
  | context, [] => (context, none)
  | context, node :: rest =>
    match processFunctionDeclaration context node with
    | (c, none) => processFunctionList c rest
    | (c, some e) => (c, some e)

/-- `processFunctionsPass` from `compiler.ts`: convert every function of
every non-declaration source file, stopping at the first thrown error. -/
def processFunctionsPass : CompilePass := fun context =>
  processFunctionList context
    (((context.project.filter (fun src => !src.isDeclarationFile)).map
        (fun src => src.functions)).flatten)

/-- Modelled from the spec: the behaviour of `ScriptBuilder.compile`
(`ScriptBuilder.ts` is not among the provided sources): lay a method's
operations out as bytes at a given offset, with its sequence points, or fail
on an internal invariant violation (spec.md §4.4).  The driver theorems
quantify over any such assembler. -/
abbrev Assembler := List Operation → Nat → Except String (List Nat × List SequencePoint)

structure MethodInfo where
  methodDef : Option ContractMethodDefinition
  debug : DebugInfoMethod
  deriving DecidableEq, Repr

/-- The method-collection loop of `collectArtifactsPass`: thread the running
full script through each operation context. -/
def collectMethods (assemble : Assembler) :
    List OperationContext → List Nat → List MethodInfo →
      Except String (List Nat × List MethodInfo)
  | [], fullScript, methods => Except.ok (fullScript, methods)
  | op :: rest, fullScript, methods =>
    match assemble op.builderOps fullScript.length with
    | Except.error e => Except.error e
    | Except.ok (script, sequencePoints) =>
      let methodDef := toMethodDef op.node fullScript.length
      let debug := toDebugInfoMethod op fullScript.length script.length sequencePoints
      collectMethods assemble rest (fullScript ++ script)
        (methods ++ [{ methodDef := methodDef, debug := debug }])

/-- `collectArtifactsPass` from `compiler.ts`: assemble every method, then
build the NEF, the manifest (keeping only the defined method entries) and
the debug info.  `context.artifacts` is assigned only by the final
statement, so a thrown error leaves the context untouched. -/
def collectArtifactsPass (assemble : Assembler) : CompilePass := fun context =>
  match collectMethods assemble context.operations [] [] with
  | Except.error e => (context, some e)
  | Except.ok (fullScript, methods) =>
    let name := context.name.getD "Test Contract"
    let nef : NEF := { compiler := "neo-devpack-ts", script := fullScript }
    let manifest : ContractManifest :=
      { name := name, methods := methods.filterMap (fun m => m.methodDef) }
    let debugInfo : DebugInfo := { methods := methods.map (fun m => m.debug) }
    ({ context with
        artifacts := some { nef := nef, manifest := manifest, debugInfo := debugInfo } },
      none)

/-- The catch-block of the driver: a thrown error becomes an error-severity
diagnostic (`toDiagnostic` in the source also records the node's span). -/
def toDiagnostic (msg : String) : Diagnostic :=
  { category := DiagnosticCategory.Error, messageText := msg }

def hasErrorDiagnostic (diagnostics : List Diagnostic) : Bool :=
  diagnostics.any (fun d => d.category == DiagnosticCategory.Error)

/-- One iteration of the driver loop of `compile`: run the pass, catching a
thrown error into the diagnostics list. -/
def stepPass (pass : CompilePass) (context : CompilationContext) : CompilationContext :=
  match pass context with
  | (c, none) => c
  | (c, some msg) => { c with diagnostics := c.diagnostics ++ [toDiagnostic msg] }

/-- The driver loop of `compile`: run the passes in order, stopping as soon
as the diagnostics list holds an error-severity diagnostic. -/
def runPasses : List CompilePass → CompilationContext → CompilationContext
  | [], context => context
  | pass :: rest, context =>
    let c := stepPass pass context
    if hasErrorDiagnostic c.diagnostics then c else runPasses rest c

structure CompileResults where
  diagnostics : List Diagnostic
  artifacts : Option CompilationArtifacts
  deriving DecidableEq, Repr

/-- `compile` from `compiler.ts`: fresh context, the three passes in order,
then the results record. -/
def compile (assemble : Assembler) (project : List SourceFileM) : CompileResults :=
  let context : CompilationContext := { project := project }
  let final := runPasses
    [resolveDeclarationsPass, processFunctionsPass, collectArtifactsPass assemble] context
  { diagnostics := final.diagnostics, artifacts := final.artifacts }

/-! ## Buffer-allocation model for the decoder's frame effect

`byteArrayToBigInt` restated against an explicit store of buffer objects, to
express what the JS code mutates: `Buffer.from(value)` allocates a fresh
buffer holding a copy of the input's contents, and `buffer.reverse()`
mutates that fresh buffer in place.  The store maps buffer identities to
contents; the input is given by its identity. -/

abbrev BufferStore := List (Nat × List Nat)

def storeLookup : BufferStore → Nat → Option (List Nat)
  | [], _ => none
  | e :: rest, id => if e.1 == id then some e.2 else storeLookup rest id

def storeIds (store : BufferStore) : List Nat := store.map (fun e => e.1)

/-- A buffer identity not yet present in the store. -/
def freshBufferId (store : BufferStore) : Nat :=
  (storeIds store).foldl max 0 + 1

/-- In-place mutation of one buffer's contents. -/
def storeUpdate : BufferStore → Nat → (List Nat → List Nat) → BufferStore
  | [], _, _ => []
  | e :: rest, id, f => (if e.1 == id then (e.1, f e.2) else e) :: storeUpdate rest id f

/-- `byteArrayToBigInt` with the buffer store explicit: allocate the copy,
reverse it in place, then branch exactly as the source does.  Returns the
outcome together with the final store. -/
def byteArrayToBigIntAlloc (store : BufferStore) (valueId : Nat) :
    Except String Int × BufferStore :=
  let value := (storeLookup store valueId).getD []
  let bufferId := freshBufferId store
  let store := store ++ [(bufferId, value)]
  let store := storeUpdate store bufferId List.reverse
  let buffer := (storeLookup store bufferId).getD []
  let negativeValue := buffer.headD 0 &&& 0x80
  if negativeValue = 0 then
    if buffer.isEmpty then (Except.error "Cannot convert 0x to a BigInt", store)
    else (Except.ok (toBigInt buffer : Nat), store)
  else (Except.error "Not Implemented", store)

/-! ## Concrete instances used by the witnesses -/

def exampleVoidFunction : FunctionDeclaration :=
  { name := "setValue"
    hasExportKeyword := true
    parameters := [{ name := "value", type := TsTypeCategory.stringLike }]
    returnType := TsTypeCategory.voidLike
    body := Except.ok [Operation.syscall "System.Storage.Put"] }

def examplePrivateFunction : FunctionDeclaration :=
  { name := "helper"
    hasExportKeyword := false
    parameters := []
    returnType := TsTypeCategory.stringLike
    body := Except.ok [pushString "Hello, World!"] }

def exampleFailingFunction : FunctionDeclaration :=
  { name := "broken"
    hasExportKeyword := true
    parameters := []
    returnType := TsTypeCategory.voidLike
    body := Except.error "reduceChainContext ForStatement not implemented" }

def exampleVoidOperationContext : OperationContext :=
  { name := "setValue"
    isPublic := true
    node := exampleVoidFunction
    builderOps := [Operation.initslot 0 1, Operation.syscall "System.Storage.Put"] }

/-- A one-file project whose single function fails to translate. -/
def exampleFailingProject : List SourceFileM :=
  [{ isDeclarationFile := false, functions := [exampleFailingFunction] }]

/-- An assembler that lays every operation out as its one-byte opcode
placeholder; only its type matters to the driver theorems. -/
def exampleAssembler : Assembler := fun ops offset =>
  Except.ok (ops.map (fun _ => 0), [{ address := offset, line := 1 }])

def exampleFailingContext : CompilationContext := { project := exampleFailingProject }

def exampleErrorChainContext : ExpressionChainContext :=
  { scope := [], endTarget := Operation.noop 0, ops := [pushInt 1],
    error := some (makeParseError "boom") }

def exampleChainScope : Scope :=
  [("x", { symbol := "x", getLoadOps := some (Except.error (makeParseError "boom")) })]

/-- `x.y` over `exampleChainScope`: the chain reduction records the load
error at `x` and skips the property-access step. -/
def exampleChainNode : Expr := Expr.propertyAccess (Expr.identifier "x") "y"

def exampleStore : BufferStore := [(5, [1, 2]), (9, [255])]

/-! ## Basic lemmas about the byte decompositions -/

theorem natToBytesLEFuel_congr :
    ∀ (n fuel fuel' : Nat), n ≤ fuel → n ≤ fuel' →
      natToBytesLEFuel fuel n = natToBytesLEFuel fuel' n := by
  intro n
  induction n using Nat.strong_induction_on with
  | _ n ih =>
    intro fuel fuel' h h'
    match n, fuel, fuel' with
    | 0, fuel, fuel' => cases fuel <;> cases fuel' <;> rfl
    | m + 1, f + 1, f' + 1 =>
      have hdiv : (m + 1) / 256 < m + 1 := Nat.div_lt_self (Nat.succ_pos m) (by decide)
      simp only [natToBytesLEFuel]
      exact congrArg _ (ih _ hdiv f f' (by omega) (by omega))

theorem natToBytesLE_eq_cons (n : Nat) (h : n ≠ 0) :
    natToBytesLE n = (n % 256) :: natToBytesLE (n / 256) := by
  match n, h with
  | m + 1, _ =>
    have hdiv : (m + 1) / 256 < m + 1 := Nat.div_lt_self (Nat.succ_pos m) (by decide)
    show natToBytesLEFuel (m + 1) (m + 1) = _
    simp only [natToBytesLEFuel]
    exact congrArg _ (natToBytesLEFuel_congr _ m _ (by omega) le_rfl)

theorem natToBytesLE_mem_lt : ∀ (n b : Nat), b ∈ natToBytesLE n → b < 256 := by
  intro n
  induction n using Nat.strong_induction_on with
  | _ n ih =>
    intro b hb
    rcases Nat.eq_zero_or_pos n with h0 | hpos
    · subst h0; simp [natToBytesLE, natToBytesLEFuel] at hb
    · rw [natToBytesLE_eq_cons n (Nat.pos_iff_ne_zero.mp hpos)] at hb
      rcases List.mem_cons.mp hb with h | h
      · subst h; exact Nat.mod_lt _ (by decide)
      · exact ih (n / 256) (Nat.div_lt_self hpos (by decide)) b h

theorem natToBytesLE_ne_nil (n : Nat) (h : n ≠ 0) : natToBytesLE n ≠ [] := by
  rw [natToBytesLE_eq_cons n h]; exact List.cons_ne_nil _ _

theorem natToBytesBE_mem_lt (n b : Nat) (hb : b ∈ natToBytesBE n) : b < 256 :=
  natToBytesLE_mem_lt n b (List.mem_reverse.mp hb)

theorem natToBytesBE_ne_nil (n : Nat) (h : n ≠ 0) : natToBytesBE n ≠ [] := by
  intro hnil
  exact natToBytesLE_ne_nil n h (List.reverse_eq_nil_iff.mp hnil)

theorem headD_mem (l : List Nat) (h : l ≠ []) : l.headD 0 ∈ l := by
  cases l with
  | nil => exact absurd rfl h
  | cons a l => exact List.mem_cons_self a l

theorem natToBytesBE_headD_lt (n : Nat) (h : n ≠ 0) : (natToBytesBE n).headD 0 < 256 :=
  natToBytesBE_mem_lt n _ (headD_mem _ (natToBytesBE_ne_nil n h))

set_option maxRecDepth 4096 in
theorem byte_and_128_eq_zero_iff : ∀ b < 256, (b &&& 128 = 0 ↔ b < 128) := by decide

set_option maxRecDepth 4096 in
theorem byte_xor_255 : ∀ b < 256, b ^^^ 255 = 255 - b := by decide

theorem headD_reverse (l : List Nat) : l.reverse.headD 0 = l.getLastD 0 := by
  rw [List.headD_eq_head?, List.head?_reverse]
  cases l <;> simp [List.getLastD_eq_getLast?]

/-! ## Theorems for the integer-codec claims -/

/-- C3: `bigIntToByteArray 0` is the single byte `0x00`, and for every
`n > 0` the encoding is the big-endian magnitude bytes of `n`, with one
`0x00` byte prepended exactly when the most-significant bit of the first
magnitude byte is set, reversed to little-endian order. -/
theorem bigIntToByteArray_positive_spec :
    bigIntToByteArray 0 = [0] ∧
    ∀ n : Int, 0 < n → bigIntToByteArray n = specPositiveEncode n := by
  constructor
  · decide
  · intro n hn
    simp only [bigIntToByteArray, specPositiveEncode]
    rw [if_pos (le_of_lt hn)]
    have hm : n.toNat ≠ 0 := by omega
    rw [show toBuffer n.toNat = natToBytesBE n.toNat from if_neg hm]
    congr 1
    apply if_congr _ rfl rfl
    have hlt := natToBytesBE_headD_lt n.toNat hm
    rw [Ne, byte_and_128_eq_zero_iff _ hlt, not_lt]

/-- Witness for C3 at `n = 128`. -/
theorem bigIntToByteArray_positive_spec_witness :
    (0 : Int) < 128 ∧ bigIntToByteArray 128 = specPositiveEncode 128 :=
  ⟨by decide, bigIntToByteArray_positive_spec.2 128 (by decide)⟩

/-- C2: for every `n < 0`, `bigIntToByteArray n` equals the spec's
negative-encoding algorithm (magnitude, all-`0xFF` padding, byte inversion,
add one, re-encode, `0xFF` sign byte, reverse). -/
theorem bigIntToByteArray_negative_spec :
    ∀ n : Int, n < 0 → bigIntToByteArray n = specNegativeEncode n := by
  intro n hn
  simp only [bigIntToByteArray, specNegativeEncode, allBitsSet, toBigInt]
  rw [if_neg (not_le.mpr hn)]
  have hm : (-n).toNat ≠ 0 := by omega
  rw [show toBuffer (-n).toNat = natToBytesBE (-n).toNat from if_neg hm]
  set mag0 := natToBytesBE (-n).toNat with hmag0
  set mag := if mag0.all (fun b => b == 0xff) then 0 :: mag0 else mag0 with hmag
  have hmaglt : ∀ b ∈ mag, b < 256 := by
    intro b hb
    rw [hmag] at hb
    split at hb
    · rcases List.mem_cons.mp hb with h | h
      · omega
      · exact natToBytesBE_mem_lt _ _ h
    · exact natToBytesBE_mem_lt _ _ hb
  have hmap : mag.map (fun b => b ^^^ 0xff) = mag.map (fun b => 255 - b) :=
    List.map_congr_left (fun b hb => byte_xor_255 b (hmaglt b hb))
  rw [hmap]
  set s := bytesToNatBE (mag.map fun b => 255 - b) + 1 with hs
  have hs0 : s ≠ 0 := by omega
  rw [show toBuffer s = natToBytesBE s from if_neg hs0]
  congr 1
  apply if_congr _ rfl rfl
  have hlt := natToBytesBE_headD_lt s hs0
  rw [byte_and_128_eq_zero_iff _ hlt]

/-- Witness for C2 at `n = -129`. -/
theorem bigIntToByteArray_negative_spec_witness :
    (-129 : Int) < 0 ∧ bigIntToByteArray (-129) = specNegativeEncode (-129) :=
  ⟨by decide, bigIntToByteArray_negative_spec (-129) (by decide)⟩

/-- C1 counterexample: the round trip fails on the negative boundary value
`-1` (which the claim's representative set contains): `bigIntToByteArray (-1)`
is `[0xFF]`, whose sign bit is set, so `byteArrayToBigInt` throws
"Not Implemented" instead of returning `-1`. -/
theorem roundTrip_fails_on_negative :
    byteArrayToBigInt (bigIntToByteArray (-1)) = Except.error "Not Implemented" ∧
    byteArrayToBigInt (bigIntToByteArray (-1)) ≠ Except.ok (-1 : Int) := by
  refine ⟨rfl, fun h => ?_⟩
  rw [show byteArrayToBigInt (bigIntToByteArray (-1))
        = Except.error "Not Implemented" from rfl] at h
  exact Except.noConfusion h

/-- C1 (amended): over the representative boundary set of both signs,
`bigIntToByteArray` produces exactly the expected byte strings; the decoder
round-trips the non-negative values, and on every negative value's encoding
it throws "Not Implemented" instead of returning the value. -/
theorem roundTrip_representative_table :
    (c1PositiveCases.all fun p => encodesTo p.1 p.2 && decodesBackTo p.2 p.1) = true ∧
    (c1NegativeCases.all fun p => encodesTo p.1 p.2 && decodeNotImplemented p.2) = true := by
  decide

/-- C4: decoding any non-empty byte array whose most-significant byte (the
last byte, little-endian) has its sign bit set throws "Not Implemented", and
a value is returned only for inputs whose sign bit is clear. -/
theorem byteArrayToBigInt_negative_unsupported :
    (∀ bs : List Nat, bs ≠ [] → bs.getLastD 0 &&& 0x80 ≠ 0 →
        byteArrayToBigInt bs = Except.error "Not Implemented") ∧
    (∀ (bs : List Nat) (v : Int), byteArrayToBigInt bs = Except.ok v →
        bs.getLastD 0 &&& 0x80 = 0) := by
  constructor
  · intro bs _ h
    simp only [byteArrayToBigInt, headD_reverse]
    rw [if_neg h]
  · intro bs v h
    by_cases hc : bs.getLastD 0 &&& 0x80 = 0
    · exact hc
    · simp only [byteArrayToBigInt, headD_reverse] at h
      rw [if_neg hc] at h
      exact Except.noConfusion h

/-- Witness for C4 at the input `[0xFF]`. -/
theorem byteArrayToBigInt_negative_unsupported_witness :
    ([255] : List Nat) ≠ [] ∧
    byteArrayToBigInt [255] = Except.error "Not Implemented" := by
  refine ⟨by decide, byteArrayToBigInt_negative_unsupported.1 [255] (by decide) (by decide)⟩

/-- C5: evaluation at the failing input `n = -16711808` (magnitude
`0xFF0080`): the code returns the little-endian bytes `[0x80, 0xFF]`, whose
leading (most-significant) `0xFF` byte is removable — the shorter string
`[0x80]` has the same two's-complement value — and that value is `-128`, not
`-16711808`, so the encoding is neither minimal nor correct there. -/
theorem bigIntToByteArray_not_minimal_at_neg16711808 :
    bigIntToByteArray (-16711808) = [0x80, 0xff] ∧
    hasRemovableLeadingByte (bigIntToByteArray (-16711808)) = true ∧
    twosComplementValue (bigIntToByteArray (-16711808)) = twosComplementValue [0x80] ∧
    twosComplementValue (bigIntToByteArray (-16711808)) ≠ -16711808 := by
  decide

/-! ## Theorems for the expression-translator claims -/

/-- C6: `makeConditionalExpression` returns exactly
`condition ++ [jump-if-not(falseTarget)] ++ whenTrue ++ [jump(endTarget)] ++
[falseTarget] ++ whenFalse ++ [endTarget]`, where the two targets are fresh,
distinct no-ops, and each of the two jump-style operations it introduces has
its target appearing exactly once, strictly later in the sequence. -/
theorem makeConditionalExpression_spec (falseId endId : Nat)
    (condition whenTrue whenFalse : List Operation)
    (hne : falseId ≠ endId)
    (hfreshFalse : Operation.noop falseId ∉ condition ++ whenTrue ++ whenFalse)
    (hfreshEnd : Operation.noop endId ∉ condition ++ whenTrue ++ whenFalse) :
    makeConditionalExpression falseId endId condition whenTrue whenFalse
        = condition ++ [Operation.jumpifnot falseId] ++ whenTrue
            ++ [Operation.jump endId] ++ [Operation.noop falseId]
            ++ whenFalse ++ [Operation.noop endId]
    ∧ Operation.noop falseId ≠ Operation.noop endId
    ∧ (∃ pre post,
        makeConditionalExpression falseId endId condition whenTrue whenFalse
            = pre ++ Operation.noop falseId :: post
        ∧ Operation.jumpifnot falseId ∈ pre
        ∧ Operation.noop falseId ∉ pre ∧ Operation.noop falseId ∉ post)
    ∧ (∃ pre post,
        makeConditionalExpression falseId endId condition whenTrue whenFalse
            = pre ++ Operation.noop endId :: post
        ∧ Operation.jump endId ∈ pre
        ∧ Operation.noop endId ∉ pre ∧ Operation.noop endId ∉ post) := by
  simp only [List.mem_append, not_or] at hfreshFalse hfreshEnd
  obtain ⟨⟨hf1, hf2⟩, hf3⟩ := hfreshFalse
  obtain ⟨⟨he1, he2⟩, he3⟩ := hfreshEnd
  refine ⟨rfl, fun h => hne (Operation.noop.inj h), ?_, ?_⟩
  · refine ⟨condition ++ [Operation.jumpifnot falseId] ++ whenTrue ++ [Operation.jump endId],
      whenFalse ++ [Operation.noop endId], ?_, by simp, ?_, ?_⟩
    · simp [makeConditionalExpression]
    · intro h
      simp only [List.mem_append, List.mem_singleton] at h
      rcases h with ((h | h) | h) | h
      · exact hf1 h
      · exact Operation.noConfusion h
      · exact hf2 h
      · exact Operation.noConfusion h
    · intro h
      rcases List.mem_append.mp h with h | h
      · exact hf3 h
      · exact hne (Operation.noop.inj (List.mem_singleton.mp h))
  · refine ⟨condition ++ [Operation.jumpifnot falseId] ++ whenTrue ++ [Operation.jump endId]
        ++ [Operation.noop falseId] ++ whenFalse, [], ?_, by simp, ?_, by simp⟩
    · simp [makeConditionalExpression]
    · intro h
      simp only [List.mem_append, List.mem_singleton] at h
      rcases h with ((((h | h) | h) | h) | h) | h
      · exact he1 h
      · exact Operation.noConfusion h
      · exact he2 h
      · exact Operation.noConfusion h
      · exact hne.symm (Operation.noop.inj h)
      · exact he3 h

/-- Witness for C6 on a concrete condition and branches. -/
theorem makeConditionalExpression_spec_witness :
    makeConditionalExpression 0 1 [pushInt 1] [Operation.pushbool true] [Operation.pushnull]
        = [pushInt 1] ++ [Operation.jumpifnot 0] ++ [Operation.pushbool true]
            ++ [Operation.jump 1] ++ [Operation.noop 0]
            ++ [Operation.pushnull] ++ [Operation.noop 1] :=
  (makeConditionalExpression_spec 0 1 [pushInt 1] [Operation.pushbool true]
    [Operation.pushnull] (by decide) (by decide) (by decide)).1

/-- C9: once an error is recorded in the chain context, every further
reduction step returns the context unchanged, so `parseExpression` returns
the first error recorded along the chain. -/
theorem reduceExpressionChain_shortCircuits :
    (∀ (context : ExpressionChainContext) (node : Expr),
        context.error.isSome = true → reduceExpressionChain context node = context)
    ∧ (∀ (chain : List Expr) (context : ExpressionChainContext),
        context.error.isSome = true →
        chain.foldl reduceExpressionChain context = context)
    ∧ (∀ (endId : Nat) (scope : Scope) (node : Expr) (pre suf : List Expr) (e : ParseError),
        makeExpressionChain node = pre ++ suf →
        (pre.foldl reduceExpressionChain (initialChainContext scope endId)).error = some e →
        parseExpression endId scope node = Except.error e) := by
  have h1 : ∀ (context : ExpressionChainContext) (node : Expr),
      context.error.isSome = true → reduceExpressionChain context node = context := by
    intro c n h
    simp only [reduceExpressionChain]
    rw [if_pos h]
  have h2 : ∀ (chain : List Expr) (context : ExpressionChainContext),
      context.error.isSome = true → chain.foldl reduceExpressionChain context = context := by
    intro chain
    induction chain with
    | nil => intro c _; rfl
    | cons a l ih =>
      intro c h
      rw [List.foldl_cons, h1 c a h]
      exact ih c h
  refine ⟨h1, h2, ?_⟩
  intro endId scope node pre suf e hchain herr
  simp only [parseExpression, hchain, List.foldl_append]
  rw [h2 suf _ (by rw [herr]; rfl), herr]

/-- Witness for C9: a context holding an error absorbs a further step, and a
chain whose first step fails (a load error on `x` in `x.y`) makes
`parseExpression` return that first error. -/
theorem reduceExpressionChain_shortCircuits_witness :
    reduceExpressionChain exampleErrorChainContext Expr.nullLiteral = exampleErrorChainContext
    ∧ parseExpression 0 exampleChainScope exampleChainNode
        = Except.error (makeParseError "boom") :=
  ⟨reduceExpressionChain_shortCircuits.1 exampleErrorChainContext Expr.nullLiteral rfl,
   reduceExpressionChain_shortCircuits.2.2 0 exampleChainScope exampleChainNode
     [Expr.identifier "x"] [exampleChainNode] (makeParseError "boom") rfl rfl⟩

/-! ## Theorems for the manifest and pass-driver claims -/

/-- C7 counterexample: for the exported void-returning function `setValue`,
the manifest ABI entry produced by `toMethodDef` carries an explicit
`ContractParamType.Void` return type — the return-type field is present, not
omitted. -/
theorem toMethodDef_void_returnType_present :
    (toMethodDef exampleVoidFunction 0).map (fun md => md.returnType)
        = some ContractParamType.Void
    ∧ (toMethodDef exampleVoidFunction 0).map (fun md => md.returnType)
        ≠ (none : Option ContractParamType) := by
  decide

/-- C7 (amended): a manifest ABI method entry is produced iff the declaration
carries the export keyword; for an exported void-like function the manifest
entry's return type is the explicit `Void` constant, while it is the
debug-info method entry whose return type is omitted for void. -/
theorem manifestEntry_export_and_voidReturn :
    (∀ (node : FunctionDeclaration) (offset : Nat),
        (toMethodDef node offset).isSome = node.hasExportKeyword)
    ∧ (∀ (node : FunctionDeclaration) (offset : Nat),
        node.hasExportKeyword = true → isVoidLike node.returnType = true →
        (toMethodDef node offset).map (fun md => md.returnType)
          = some ContractParamType.Void)
    ∧ (∀ (op : OperationContext) (offset length : Nat) (sps : List SequencePoint),
        isVoidLike op.node.returnType = true →
        (toDebugInfoMethod op offset length sps).returnType = none) := by
  refine ⟨?_, ?_, ?_⟩
  · intro node offset
    by_cases h : node.hasExportKeyword <;> simp [toMethodDef, h]
  · intro node offset hexp hvoid
    simp [toMethodDef, hexp, hvoid]
  · intro op offset length sps hvoid
    simp [toDebugInfoMethod, hvoid]

/-- Witness for C7 at `setValue` (exported, void). -/
theorem manifestEntry_export_and_voidReturn_witness :
    (toMethodDef exampleVoidFunction 0).isSome = exampleVoidFunction.hasExportKeyword
    ∧ (toMethodDef exampleVoidFunction 0).map (fun md => md.returnType)
        = some ContractParamType.Void
    ∧ (toDebugInfoMethod exampleVoidOperationContext 5 2 []).returnType = none :=
  ⟨manifestEntry_export_and_voidReturn.1 exampleVoidFunction 0,
   manifestEntry_export_and_voidReturn.2.1 exampleVoidFunction 0 rfl rfl,
   manifestEntry_export_and_voidReturn.2.2 exampleVoidOperationContext 5 2 [] rfl⟩

theorem processFunctionDeclaration_preserves (c : CompilationContext)
    (f : FunctionDeclaration) :
    (processFunctionDeclaration c f).1.diagnostics = c.diagnostics
    ∧ (processFunctionDeclaration c f).1.artifacts = c.artifacts := by
  cases hb : f.body <;> simp [processFunctionDeclaration, hb]

theorem processFunctionList_preserves (fs : List FunctionDeclaration) :
    ∀ c : CompilationContext,
      (processFunctionList c fs).1.diagnostics = c.diagnostics
      ∧ (processFunctionList c fs).1.artifacts = c.artifacts := by
  induction fs with
  | nil => intro c; exact ⟨rfl, rfl⟩
  | cons f rest ih =>
    intro c
    have hpf := processFunctionDeclaration_preserves c f
    rcases hp : processFunctionDeclaration c f with ⟨c', e⟩
    rw [hp] at hpf
    cases e with
    | none =>
      have := ih c'
      simp only [processFunctionList, hp]
      exact ⟨this.1.trans hpf.1, this.2.trans hpf.2⟩
    | some msg =>
      simp only [processFunctionList, hp]
      exact hpf

theorem processFunctionsPass_preserves (c : CompilationContext) :
    (processFunctionsPass c).1.diagnostics = c.diagnostics
    ∧ (processFunctionsPass c).1.artifacts = c.artifacts :=
  processFunctionList_preserves _ c

/-- `collectArtifactsPass` either throws with the context untouched, or
succeeds, setting only `artifacts`. -/
theorem collectArtifactsPass_cases (a : Assembler) (c : CompilationContext) :
    (∃ e, collectArtifactsPass a c = (c, some e))
    ∨ (∃ arts, collectArtifactsPass a c = ({ c with artifacts := some arts }, none)) := by
  unfold collectArtifactsPass
  cases hm : collectMethods a c.operations [] [] with
  | error e => exact Or.inl ⟨e, rfl⟩
  | ok pr =>
    rcases pr with ⟨fullScript, methods⟩
    exact Or.inr ⟨_, rfl⟩

/-- C8: the driver runs its passes in order and, as soon as the diagnostics
list holds an error-severity diagnostic, runs no subsequent pass; a `compile`
result whose diagnostics hold an error has no artifacts. -/
theorem compile_halts_on_error :
    (∀ (ps1 ps2 : List CompilePass) (context : CompilationContext),
        ps1 ≠ [] →
        hasErrorDiagnostic (runPasses ps1 context).diagnostics = true →
        runPasses (ps1 ++ ps2) context = runPasses ps1 context)
    ∧ (∀ (assemble : Assembler) (project : List SourceFileM),
        hasErrorDiagnostic (compile assemble project).diagnostics = true →
        (compile assemble project).artifacts = none) := by
  constructor
  · intro ps1
    induction ps1 with
    | nil => intro ps2 c h; exact absurd rfl h
    | cons p rest ih =>
      intro ps2 c _ herr
      by_cases hc : hasErrorDiagnostic (stepPass p c).diagnostics = true
      · show runPasses (p :: (rest ++ ps2)) c = runPasses (p :: rest) c
        simp only [runPasses, if_pos hc]
      · simp only [runPasses, if_neg hc] at herr ⊢
        cases rest with
        | nil => exact absurd herr hc
        | cons q qs => exact ih ps2 (stepPass p c) (List.cons_ne_nil q qs) herr
  · intro a proj herr
    simp only [compile] at herr ⊢
    set c0 : CompilationContext := { project := proj } with hc0
    -- pass 1: declaration resolution never throws and touches only builtins
    have h1 : runPasses
        [resolveDeclarationsPass, processFunctionsPass, collectArtifactsPass a] c0
        = runPasses [processFunctionsPass, collectArtifactsPass a]
            (stepPass resolveDeclarationsPass c0) := by
      simp only [runPasses]
      rw [if_neg (by rw [show hasErrorDiagnostic
        (stepPass resolveDeclarationsPass c0).diagnostics = false from rfl]; simp)]
    set c1 := stepPass resolveDeclarationsPass c0 with hc1def
    have hc1diag : c1.diagnostics = [] := rfl
    have hc1arts : c1.artifacts = none := rfl
    rw [h1] at herr ⊢
    -- pass 2: function processing
    have hpf := processFunctionsPass_preserves c1
    rcases hp : processFunctionsPass c1 with ⟨c2, e2⟩
    rw [hp] at hpf
    have hc2diag : c2.diagnostics = [] := hpf.1.trans hc1diag
    have hc2arts : c2.artifacts = none := hpf.2.trans hc1arts
    cases e2 with
    | some msg =>
      have hstep : stepPass processFunctionsPass c1
          = { c2 with diagnostics := c2.diagnostics ++ [toDiagnostic msg] } := by
        simp only [stepPass, hp]
      have hhas : hasErrorDiagnostic (stepPass processFunctionsPass c1).diagnostics = true := by
        rw [hstep]
        simp [hasErrorDiagnostic, toDiagnostic]
      simp only [runPasses, if_pos hhas]
      rw [hstep]
      exact hc2arts
    | none =>
      have hstep : stepPass processFunctionsPass c1 = c2 := by
        simp only [stepPass, hp]
      have hnot : ¬ hasErrorDiagnostic (stepPass processFunctionsPass c1).diagnostics = true := by
        rw [hstep, hc2diag]
        simp [hasErrorDiagnostic]
      rw [show runPasses [processFunctionsPass, collectArtifactsPass a] c1
          = runPasses [collectArtifactsPass a] (stepPass processFunctionsPass c1) by
        simp only [runPasses, if_neg hnot]] at herr ⊢
      rw [hstep] at herr ⊢
      -- pass 3: artifact collection
      rcases collectArtifactsPass_cases a c2 with ⟨e, hca⟩ | ⟨arts, hca⟩
      · have hstep3 : stepPass (collectArtifactsPass a) c2
            = { c2 with diagnostics := c2.diagnostics ++ [toDiagnostic e] } := by
          simp only [stepPass, hca]
        have hres : runPasses [collectArtifactsPass a] c2
            = stepPass (collectArtifactsPass a) c2 := by
          simp only [runPasses]
          split <;> rfl
        rw [hres, hstep3]
        exact hc2arts
      · have hstep3 : stepPass (collectArtifactsPass a) c2
            = { c2 with artifacts := some arts } := by
          simp only [stepPass, hca]
        have hres : runPasses [collectArtifactsPass a] c2
            = stepPass (collectArtifactsPass a) c2 := by
          simp only [runPasses]
          split <;> rfl
        rw [hres, hstep3] at herr
        rw [show ({ c2 with artifacts := some arts } : CompilationContext).diagnostics
            = c2.diagnostics from rfl, hc2diag] at herr
        exact absurd herr (by simp [hasErrorDiagnostic])

/-- Witness for C8: a project whose single function fails to translate makes
the driver stop after the function-processing pass, and `compile` on it
yields an error diagnostic and no artifacts. -/
theorem compile_halts_on_error_witness :
    runPasses ([processFunctionsPass] ++ [collectArtifactsPass exampleAssembler])
        exampleFailingContext
      = runPasses [processFunctionsPass] exampleFailingContext
    ∧ (compile exampleAssembler exampleFailingProject).artifacts = none :=
  ⟨compile_halts_on_error.1 [processFunctionsPass] [collectArtifactsPass exampleAssembler]
      exampleFailingContext (List.cons_ne_nil _ _) rfl,
   compile_halts_on_error.2 exampleAssembler exampleFailingProject rfl⟩

/-! ## Theorems for the decoder's frame effect -/

theorem foldl_max_le_init : ∀ (l : List Nat) (a : Nat), a ≤ l.foldl max a := by
  intro l
  induction l with
  | nil => intro a; exact le_rfl
  | cons j rest ih =>
    intro a
    exact le_trans (le_max_left a j) (ih (max a j))

theorem mem_le_foldl_max : ∀ (l : List Nat) (a i : Nat), i ∈ l → i ≤ l.foldl max a := by
  intro l
  induction l with
  | nil => intro a i h; simp at h
  | cons j rest ih =>
    intro a i h
    rcases List.mem_cons.mp h with h | h
    · subst h
      exact le_trans (le_max_right a i) (foldl_max_le_init rest (max a i))
    · exact ih (max a j) i h

theorem mem_storeIds_lt_fresh (store : BufferStore) (i : Nat)
    (h : i ∈ storeIds store) : i < freshBufferId store :=
  Nat.lt_succ_of_le (mem_le_foldl_max (storeIds store) 0 i h)

theorem storeLookup_update_ne (store : BufferStore) (k i : Nat)
    (f : List Nat → List Nat) (h : i ≠ k) :
    storeLookup (storeUpdate store k f) i = storeLookup store i := by
  induction store with
  | nil => rfl
  | cons entry rest ih =>
    rcases entry with ⟨j, v⟩
    by_cases hji : j = i
    · subst hji
      have hjk : (j == k) = false := beq_eq_false_iff_ne.mpr (fun hjk => h (hjk ▸ rfl))
      simp [storeUpdate, storeLookup, hjk]
    · have hji' : (j == i) = false := beq_eq_false_iff_ne.mpr hji
      by_cases hjk : j = k
      · subst hjk
        simp [storeUpdate, storeLookup, hji', ih]
      · have hjk' : (j == k) = false := beq_eq_false_iff_ne.mpr hjk
        simp [storeUpdate, storeLookup, hji', hjk', ih]

theorem storeLookup_append_ne (store : BufferStore) (k i : Nat) (v : List Nat)
    (h : i ≠ k) :
    storeLookup (store ++ [(k, v)]) i = storeLookup store i := by
  induction store with
  | nil =>
    have hk : (k == i) = false := beq_eq_false_iff_ne.mpr (fun hki => h (hki ▸ rfl))
    simp [storeLookup, hk]
  | cons entry rest ih =>
    rcases entry with ⟨j, w⟩
    by_cases hji : j = i
    · subst hji
      simp [storeLookup]
    · have hji' : (j == i) = false := beq_eq_false_iff_ne.mpr hji
      simp [storeLookup, hji', ih]

theorem storeLookup_fresh_update (store : BufferStore) (k : Nat) (v : List Nat)
    (f : List Nat → List Nat) (hk : k ∉ storeIds store) :
    storeLookup (storeUpdate (store ++ [(k, v)]) k f) k = some (f v) := by
  induction store with
  | nil => simp [storeUpdate, storeLookup]
  | cons entry rest ih =>
    rcases entry with ⟨j, w⟩
    have hjk : j ≠ k := fun hjk => hk (by simp [storeIds, hjk])
    have hjk' : (j == k) = false := beq_eq_false_iff_ne.mpr hjk
    have hk' : k ∉ storeIds rest := fun hmem => hk (by simp [storeIds] at hmem ⊢; exact Or.inr hmem)
    simp [storeUpdate, storeLookup, hjk', ih hk']

/-- C10: `byteArrayToBigInt` never mutates its argument.  Against the
explicit buffer store, the input buffer's contents after the call equal its
contents before the call — the function reverses a fresh copy — and the
outcome agrees with the pure `byteArrayToBigInt` on those contents, whether
it returns or throws. -/
theorem byteArrayToBigIntAlloc_frame (store : BufferStore) (valueId : Nat)
    (h : valueId ∈ storeIds store) :
    storeLookup (byteArrayToBigIntAlloc store valueId).2 valueId = storeLookup store valueId
    ∧ (byteArrayToBigIntAlloc store valueId).1
        = byteArrayToBigInt ((storeLookup store valueId).getD []) := by
  have hfresh : valueId ≠ freshBufferId store :=
    Nat.ne_of_lt (mem_storeIds_lt_fresh store valueId h)
  have hnotmem : freshBufferId store ∉ storeIds store := fun hmem =>
    Nat.lt_irrefl _ (mem_storeIds_lt_fresh store _ hmem)
  set v := (storeLookup store valueId).getD [] with hv
  have hbuf : storeLookup
      (storeUpdate (store ++ [(freshBufferId store, v)]) (freshBufferId store) List.reverse)
      (freshBufferId store) = some v.reverse :=
    storeLookup_fresh_update store (freshBufferId store) v List.reverse hnotmem
  have hval : storeLookup
      (storeUpdate (store ++ [(freshBufferId store, v)]) (freshBufferId store) List.reverse)
      valueId = storeLookup store valueId := by
    rw [storeLookup_update_ne _ _ _ _ hfresh, storeLookup_append_ne _ _ _ _ hfresh]
  constructor
  · simp only [byteArrayToBigIntAlloc, ← hv]
    split
    · split
      · exact hval
      · exact hval
    · exact hval
  · simp only [byteArrayToBigIntAlloc, byteArrayToBigInt, ← hv, hbuf, Option.getD_some]
    split
    · split <;> rfl
    · rfl

/-- Witness for C10 on a concrete two-buffer store. -/
theorem byteArrayToBigIntAlloc_frame_witness :
    storeLookup (byteArrayToBigIntAlloc exampleStore 5).2 5 = storeLookup exampleStore 5
    ∧ (byteArrayToBigIntAlloc exampleStore 5).1
        = byteArrayToBigInt ((storeLookup exampleStore 5).getD []) :=
  byteArrayToBigIntAlloc_frame exampleStore 5 (by decide)

end NeoDevpack
